import Mathlib

/-!
# Transport.Connection: framed messaging over a byte stream

A shallow embedding of `transport.cpp` (class `Transport::Connection`).

Modelling conventions

* A byte is a `Fin 256`; a `uint32_t` is a `Nat` reduced modulo `2^32` wherever the
  C arithmetic can wrap (`add32`, `sub32`).
* The host is little-endian: `storeWord`/`loadWord` are the raw `uint32_t` casts of
  the source on such a host.
* Indeterminate memory (the `malloc` block of `sendData`, the stack array
  `recv_buffer` of `_recvData`) is a parameter `Nat → Byte` giving the stale
  content of every cell.
* The socket is a script of `read` results; `read` on an exhausted script never
  returns (`blocked`).  A chunk longer than the requested count is delivered up
  to the count and the rest stays queued.  The two receive loops recurse on a
  counter started at `pending script`, which bounds the number of `read` calls;
  `recvLoop_eq` and `recvData_eq` show that they satisfy the loop equations of
  the source, so the counter never runs out.
* A memory access outside the object it addresses is undefined behaviour and is
  the explicit outcome `fault`.  Allocation (`malloc`, `calloc`) succeeds.
-/

namespace Transport

/-! ## Machine words and memory -/

abbrev Byte := Fin 256

/-- The modulus of `uint32_t` arithmetic. -/
def U32 : Nat := 4294967296

/-- The macro `PRIVATE_HEADER_LEN`. -/
def PRIVATE_HEADER_LEN : Nat := 8

/-- The enumerator `generic_data` of `enum data_type`. -/
def generic_data : Nat := 0

/-- The enumerator `header_length_update` of `enum data_type`. -/
def header_length_update : Nat := 1

/-- The constant `INET6_ADDRSTRLEN` of `<netinet/in.h>`. -/
def INET6_ADDRSTRLEN : Nat := 46

/-- The largest byte count one `read` call transfers on Linux (`MAX_RW_COUNT`);
it keeps the result inside `int`. -/
def MAX_RW_COUNT : Nat := 2147479552

/-- Addition of two `uint32_t`. -/
def add32 (a b : Nat) : Nat := (a + b) % U32

/-- Subtraction of two `uint32_t`. -/
def sub32 (a b : Nat) : Nat := (a % U32 + (U32 - b % U32)) % U32

/-- The four bytes of a `uint32_t` in memory. -/
def storeWord (x : Nat) : List Byte :=
  [Fin.ofNat x, Fin.ofNat (x / 256), Fin.ofNat (x / 65536), Fin.ofNat (x / 16777216)]

/-- The `uint32_t` held in the four cells from `off` on: `((uint32_t *)buf)[off / 4]`. -/
def loadWord (mem : Nat → Byte) (off : Nat) : Nat :=
  (mem off).val + 256 * (mem (off + 1)).val + 65536 * (mem (off + 2)).val
    + 16777216 * (mem (off + 3)).val

/-- A list of bytes seen as memory cells; cells past the end read as zero. -/
def cells (bs : List Byte) : Nat → Byte := fun i => bs.getD i 0

/-- A block of `size` bytes whose cells hold the stale content `junk`. -/
def malloc (size : Nat) (junk : Nat → Byte) : List Byte := (List.range size).map junk

/-- A zeroed block of `size` bytes. -/
def calloc (size : Nat) : List Byte := List.replicate size 0

/-- Copy `bs` into `buf` at offset `off`; `none` when the copy leaves the block. -/
def store (buf : List Byte) (off : Nat) (bs : List Byte) : Option (List Byte) :=
  if off + bs.length ≤ buf.length then
    some (buf.take off ++ bs ++ buf.drop (off + bs.length))
  else none

/-- The `cnt` cells of `mem` from `off` on. -/
def slice (mem : Nat → Byte) (off cnt : Nat) : List Byte :=
  (List.range cnt).map (fun i => mem (off + i))

/-! ## The connection -/

/-- The data members of `Connection` that the operations read or write. -/
structure Connection where
  socket_fd : Int
  header_size : Nat
  logging_on : Bool
deriving DecidableEq, Repr

/-- The macro `GET_PRIVATE_HEADER(type, len, buf)`. -/
def GET_PRIVATE_HEADER (buf : Nat → Byte) : Nat × Nat := (loadWord buf 0, loadWord buf 4)

/-- `Connection::setHeaderSize`: the buffer handed to the single `write`. -/
def setHeaderSize (_c : Connection) (size : Nat) : List Byte :=
  storeWord header_length_update ++ storeWord (add32 size PRIVATE_HEADER_LEN)

/-- `Connection::sendData`: the buffer handed to the single `write`, `none` when a
store leaves the allocated block.  `data` is the `len` bytes at the pointer. -/
def sendData (c : Connection) (junk : Nat → Byte) (data : List Byte) : Option (List Byte) :=
  let len := data.length
  let size := add32 len c.header_size
  let tmp_write_buffer := malloc size junk
  match store tmp_write_buffer 0 (storeWord len) with
  | none => none
  | some withLen =>
    match store withLen 4 data with
    | none => none
    | some filled => some (filled.take size)

/-! ## The socket -/

/-- The result of one `read` call: the bytes delivered (`data []` is the return
value 0, end of stream) or the return value -1. -/
inductive ReadResult
  | data (bs : List Byte)
  | err
deriving DecidableEq, Repr

/-- Queued bytes plus queued results: a bound on the `read` calls a script can answer. -/
def pending : List ReadResult → Nat
  | [] => 0
  | .data bs :: rest => bs.length + 1 + pending rest
  | .err :: rest => 1 + pending rest

/-- The system call `read(fd, buf, count)` against the script of the socket: the
result and the script left, `none` when the call never returns. -/
def read (count : Nat) : List ReadResult → Option (ReadResult × List ReadResult)
  | [] => none
  | .err :: rest => some (.err, rest)
  | .data bs :: rest =>
    if bs.length ≤ min count MAX_RW_COUNT then some (.data bs, rest)
    else some (.data (bs.take (min count MAX_RW_COUNT)),
               .data (bs.drop (min count MAX_RW_COUNT)) :: rest)

/-- What a receive call does: it returns (buffer or null, `*out_len`, the
connection afterwards, the script left), never returns, or leaves the memory it
owns. -/
inductive Outcome
  | ret (data : Option (List Byte)) (out_len : Nat) (c : Connection) (rest : List ReadResult)
  | blocked
  | fault
deriving DecidableEq, Repr

/-- The first loop of `_recvData`, `while ((n = read(fd, recv_buffer, 1024)) <= 0) {}`:
`n`, the scratch buffer after the read and the script left. -/
def awaitData (recv_buffer : Nat → Byte) :
    List ReadResult → Option (Nat × (Nat → Byte) × List ReadResult)
  | [] => none
  | .err :: rest => awaitData recv_buffer rest
  | .data bs :: rest =>
    if bs.length = 0 then awaitData recv_buffer rest
    else if bs.length ≤ 1024 then some (bs.length, fun i => bs.getD i (recv_buffer i), rest)
    else some (1024, fun i => (bs.take 1024).getD i (recv_buffer i),
               .data (bs.drop 1024) :: rest)

/-- The second loop of `_recvData` with the code after it, at most `calls` reads:
`while ((n = read(fd, &heap_data[position], len + header_size)) > 0) ...`. -/
def recvLoopAux (c : Connection) (len : Nat) :
    Nat → List Byte → Nat → List ReadResult → Outcome
  | 0, _, _, _ => .blocked
  | calls + 1, heap_data, position, script =>
    match read (add32 len c.header_size) script with
    | none => .blocked
    | some (.err, rest) => .ret none 0 c rest
    | some (.data bs, rest) =>
      if bs.length = 0 then .ret (some heap_data) position c rest
      else
        match store heap_data position bs with
        | none => .fault
        | some filled =>
          if add32 position bs.length ≥ len then
            .ret (some filled) (add32 position bs.length) c rest
          else recvLoopAux c len calls filled (add32 position bs.length) rest

/-- The second loop of `_recvData` with the code after it. -/
def recvLoop (c : Connection) (len : Nat) (heap_data : List Byte) (position : Nat)
    (script : List ReadResult) : Outcome :=
  recvLoopAux c len (pending script) heap_data position script

/-- `Connection::_recvData`; `stale` is the content of `recv_buffer` on entry. -/
def _recvData (c : Connection) (stale : Nat → Byte) (script : List ReadResult) : Outcome :=
  match awaitData stale script with
  | none => .blocked
  | some (n, recv_buffer, rest) =>
    let position := sub32 n c.header_size
    let (type, len) := GET_PRIVATE_HEADER recv_buffer
    if type = generic_data then
      let heap_data := calloc len
      if 4 + position ≤ 1024 then
        match store heap_data 0 (slice recv_buffer 4 position) with
        | none => .fault
        | some copied =>
          if n ≥ add32 len c.header_size then .ret (some copied) position c rest
          else recvLoop c len copied position rest
      else .fault
    else if type = header_length_update then
      if len ≥ PRIVATE_HEADER_LEN then
        .ret none (U32 - 1) { c with header_size := len } rest
      else .ret none 0 c rest
    else .ret none 0 c rest

/-- `Connection::recvData`, at most `calls` calls of `_recvData`; `stale k` is the
content of `recv_buffer` on entry to the `k`-th call. -/
def recvDataAux : Nat → Connection → (Nat → Nat → Byte) → List ReadResult → Outcome
  | 0, _, _, _ => .blocked
  | calls + 1, c, stale, script =>
    match _recvData c (stale 0) script with
    | .ret none out_len c1 rest =>
      if out_len = U32 - 1 then recvDataAux calls c1 (fun k => stale (k + 1)) rest
      else .ret none out_len c1 rest
    | out => out

/-- `Connection::recvData`. -/
def recvData (c : Connection) (stale : Nat → Nat → Byte) (script : List ReadResult) :
    Outcome :=
  recvDataAux (pending script) c stale script

/-! ## Establishing the connection -/

/-- The C library function `strncmp` on strings without their terminator. -/
def strncmp : List Char → List Char → Nat → Int
  | _, _, 0 => 0
  | [], [], _ + 1 => 0
  | [], _ :: _, _ + 1 => -1
  | _ :: _, [], _ + 1 => 1
  | a :: as, b :: bs, n + 1 =>
    if a = b then strncmp as bs n else if a.toNat < b.toNat then -1 else 1

/-- The string `inet_ntop` leaves in `char new_addr_name[INET6_ADDRSTRLEN]`. -/
structure PeerName where
  name : List Char
  fits : name.length < INET6_ADDRSTRLEN
deriving DecidableEq

/-- What the socket calls of the constructor return; an `accept` result is the
descriptor with the name `inet_ntop` makes of the peer address. -/
structure Network where
  socket : Int
  inet_pton : List Char → Int
  connect : Int
  accepts : List (Int × PeerName)

/-- The accept loop after the label `listen:`: the descriptor adopted, the
descriptors closed on the way and the accept results not consumed; `none` when no
accepted peer is adopted. -/
def listen (strict : Bool) (addr : Option (List Char)) :
    List (Int × PeerName) → Option (Int × List Int × List (Int × PeerName))
  | [] => none
  | (new_fd, new_addr_name) :: later =>
    if strict ∧ addr.isSome ∧ strncmp new_addr_name.name (addr.getD []) INET6_ADDRSTRLEN ≠ 0 then
      match listen strict addr later with
      | none => none
      | some (fd, closed, unused) => some (fd, new_fd :: closed, unused)
    else some (new_fd, [], later)

/-- The constructor `Connection::Connection`: the object built and the descriptors
closed, `none` when the accept loop never adopts a peer. -/
def Connection.new (net : Network) (addr : Option (List Char)) (_port : Int)
    (strict logging : Bool) : Option (Connection × List Int) :=
  let header_size := PRIVATE_HEADER_LEN
  let logging_on := logging
  let socket_fd := net.socket
  if socket_fd < 0 then some (⟨socket_fd, header_size, logging_on⟩, [])
  else
    let listening : Option (Connection × List Int) :=
      match listen strict addr net.accepts with
      | none => none
      | some (new_fd, closed, _) => some (⟨new_fd, header_size, logging_on⟩, closed)
    match addr with
    | none => listening
    | some a =>
      if net.inet_pton a ≤ 0 then listening
      else if net.connect < 0 then listening
      else some (⟨socket_fd, header_size, logging_on⟩, [])

/-- The constructor reaches the label `listen:`. -/
def passive (net : Network) (addr : Option (List Char)) : Prop :=
  0 ≤ net.socket ∧ (addr = none ∨ net.inet_pton (addr.getD []) ≤ 0 ∨ net.connect < 0)

/-- The states of a connection: built by the constructor, then any sequence of
`sendData`, `setHeaderSize` and `recvData` calls that return. -/
inductive Reachable : Connection → Prop
  | constructed {net addr port strict logging c closed} :
      Connection.new net addr port strict logging = some (c, closed) → Reachable c
  | sent {c junk data buf} : Reachable c → sendData c junk data = some buf → Reachable c
  | announced {c size buf} : Reachable c → setHeaderSize c size = buf → Reachable c
  | received {c stale script data out_len c1 rest} :
      Reachable c → recvData c stale script = .ret data out_len c1 rest → Reachable c1


/-! ## The script bounds the loops -/

theorem pending_eq_zero {script : List ReadResult} (h : pending script = 0) : script = [] := by
  cases script with
  | nil => rfl
  | cons r tl => cases r <;> simp [pending] at h

theorem read_data_pending {count : Nat} {script rest : List ReadResult} {bs : List Byte}
    (h : read count script = some (.data bs, rest)) :
    pending rest + bs.length ≤ pending script := by
  cases script with
  | nil => simp [read] at h
  | cons r tl =>
    cases r with
    | err => simp [read] at h
    | data cs =>
      simp only [read] at h
      split at h
      · simp only [Option.some.injEq, Prod.mk.injEq, ReadResult.data.injEq] at h
        obtain ⟨h1, h2⟩ := h
        subst h1; subst h2
        simp only [pending]; omega
      · simp only [Option.some.injEq, Prod.mk.injEq, ReadResult.data.injEq] at h
        obtain ⟨h1, h2⟩ := h
        subst h1; subst h2
        simp only [pending, List.length_take, List.length_drop]; omega

theorem read_err_pending {count : Nat} {script rest : List ReadResult}
    (h : read count script = some (.err, rest)) : pending rest < pending script := by
  cases script with
  | nil => simp [read] at h
  | cons r tl =>
    cases r with
    | err =>
      simp only [read, Option.some.injEq, Prod.mk.injEq, true_and] at h
      subst h
      simp only [pending]; omega
    | data cs =>
      simp only [read] at h
      split at h <;> simp at h

/-- The counter of `recvLoopAux` is irrelevant once it covers the script. -/
theorem recvLoopAux_calls (c : Connection) (len : Nat) :
    ∀ (f g : Nat) (heap_data : List Byte) (position : Nat) (script : List ReadResult),
      pending script ≤ f → pending script ≤ g →
      recvLoopAux c len f heap_data position script
        = recvLoopAux c len g heap_data position script := by
  intro f
  induction f with
  | zero =>
    intro g heap_data position script hf _
    have hs : script = [] := pending_eq_zero (by omega)
    subst hs
    cases g <;> simp [recvLoopAux, read]
  | succ f ih =>
    intro g heap_data position script hf hg
    cases g with
    | zero =>
      have hs : script = [] := pending_eq_zero (by omega)
      subst hs
      simp [recvLoopAux, read]
    | succ g =>
      simp only [recvLoopAux]
      cases hrd : read (add32 len c.header_size) script with
      | none => rfl
      | some p =>
        obtain ⟨r, rest⟩ := p
        cases r with
        | err => rfl
        | data bs =>
          have hp := read_data_pending hrd
          simp only
          by_cases h0 : bs.length = 0
          · simp [h0]
          · simp only [h0, if_false]
            cases store heap_data position bs with
            | none => rfl
            | some filled =>
              simp only
              by_cases hge : add32 position bs.length ≥ len
              · simp [hge]
              · simp only [hge, if_false]
                exact ih g filled _ rest (by omega) (by omega)

/-- The loop equation of the second loop of `_recvData`. -/
theorem recvLoop_eq (c : Connection) (len : Nat) (heap_data : List Byte) (position : Nat)
    (script : List ReadResult) :
    recvLoop c len heap_data position script =
      match read (add32 len c.header_size) script with
      | none => .blocked
      | some (.err, rest) => .ret none 0 c rest
      | some (.data bs, rest) =>
        if bs.length = 0 then .ret (some heap_data) position c rest
        else
          match store heap_data position bs with
          | none => .fault
          | some filled =>
            if add32 position bs.length ≥ len then
              .ret (some filled) (add32 position bs.length) c rest
            else recvLoop c len filled (add32 position bs.length) rest := by
  unfold recvLoop
  cases hp : pending script with
  | zero =>
    have hs : script = [] := pending_eq_zero hp
    subst hs
    simp [recvLoopAux, read]
  | succ k =>
    simp only [recvLoopAux]
    cases hrd : read (add32 len c.header_size) script with
    | none => rfl
    | some p =>
      obtain ⟨r, rest⟩ := p
      cases r with
      | err => rfl
      | data bs =>
        have hpd := read_data_pending hrd
        simp only
        by_cases h0 : bs.length = 0
        · simp [h0]
        · simp only [h0, if_false]
          cases store heap_data position bs with
          | none => rfl
          | some filled =>
            simp only
            by_cases hge : add32 position bs.length ≥ len
            · simp [hge]
            · simp only [hge, if_false]
              exact recvLoopAux_calls c len k _ filled _ rest (by omega) (by omega)

/-- The loop equation of the first loop of `_recvData`. -/
theorem awaitData_eq (recv_buffer : Nat → Byte) (script : List ReadResult) :
    awaitData recv_buffer script =
      match read 1024 script with
      | none => none
      | some (.err, rest) => awaitData recv_buffer rest
      | some (.data bs, rest) =>
        if bs.length = 0 then awaitData recv_buffer rest
        else some (bs.length, fun i => bs.getD i (recv_buffer i), rest) := by
  cases script with
  | nil => rfl
  | cons r tl =>
    cases r with
    | err => rfl
    | data bs =>
      simp only [awaitData, read]
      have hm : min 1024 MAX_RW_COUNT = 1024 := by decide
      rw [hm]
      by_cases h0 : bs.length = 0
      · have : bs.length ≤ 1024 := by omega
        simp [h0, this]
      · by_cases h1 : bs.length ≤ 1024
        · simp [h0, h1]
        · have h2 : (List.take 1024 bs).length = 1024 := by
            simp only [List.length_take]; omega
          simp [h0, h1, h2]


/-! ## What the receive functions return -/

theorem store_some {buf bs filled : List Byte} {off : Nat} (h : store buf off bs = some filled) :
    off + bs.length ≤ buf.length ∧ filled.length = buf.length := by
  unfold store at h
  split at h
  · rename_i hle
    simp only [Option.some.injEq] at h
    subst h
    refine ⟨hle, ?_⟩
    simp only [List.length_append, List.length_take, List.length_drop]
    omega
  · simp at h

theorem read_open {count : Nat} {script rest : List ReadResult} {r : ReadResult}
    (hopen : ReadResult.data [] ∉ script) (hc : 0 < count)
    (h : read count script = some (r, rest)) :
    ReadResult.data [] ∉ rest ∧ r ≠ ReadResult.data [] := by
  have hmax : 0 < MAX_RW_COUNT := by decide
  cases script with
  | nil => simp [read] at h
  | cons x tl =>
    simp only [List.mem_cons, not_or] at hopen
    obtain ⟨hx, htl⟩ := hopen
    cases x with
    | err =>
      simp only [read, Option.some.injEq, Prod.mk.injEq] at h
      obtain ⟨h1, h2⟩ := h
      subst h1; subst h2
      exact ⟨htl, by simp⟩
    | data cs =>
      simp only [read] at h
      split at h
      · simp only [Option.some.injEq, Prod.mk.injEq] at h
        obtain ⟨h1, h2⟩ := h
        subst h1; subst h2
        exact ⟨htl, fun e => hx e.symm⟩
      · rename_i hlen
        simp only [Option.some.injEq, Prod.mk.injEq] at h
        obtain ⟨h1, h2⟩ := h
        subst h1; subst h2
        constructor
        · simp only [List.mem_cons, not_or]
          refine ⟨?_, htl⟩
          intro e
          have e2 := congrArg (fun r => match r with | ReadResult.data b => b.length | _ => 0) e
          simp only [List.length_nil, List.length_drop] at e2
          omega
        · intro e
          have e2 := congrArg (fun r => match r with | ReadResult.data b => b.length | _ => 1) e
          simp only [List.length_nil, List.length_take] at e2
          omega

/-- Every return of the second loop: the connection is untouched, the script
shrinks, a null result carries length 0, and a buffer keeps its size with a
reported length inside it. -/
theorem recvLoopAux_ret (c : Connection) (len : Nat) :
    ∀ (f : Nat) (heap_data : List Byte) (position : Nat) (script : List ReadResult)
      (data : Option (List Byte)) (out_len : Nat) (c1 : Connection) (rest : List ReadResult),
      heap_data.length = len → position ≤ len →
      recvLoopAux c len f heap_data position script = .ret data out_len c1 rest →
      c1 = c ∧ pending rest ≤ pending script ∧ (data = none → out_len = 0) ∧
      (∀ buf, data = some buf → buf.length = len ∧ out_len ≤ len ∧
        (ReadResult.data [] ∉ script → 0 < add32 len c.header_size → out_len = len)) := by
  intro f
  induction f with
  | zero =>
    intro heap_data position script data out_len c1 rest _ _ h
    simp [recvLoopAux] at h
  | succ f ih =>
    intro heap_data position script data out_len c1 rest hlen hpos h
    simp only [recvLoopAux] at h
    cases hrd : read (add32 len c.header_size) script with
    | none => simp [hrd] at h
    | some p =>
      obtain ⟨r, tl⟩ := p
      cases r with
      | err =>
        have hp := read_err_pending hrd
        simp only [hrd, Outcome.ret.injEq] at h
        obtain ⟨h1, h2, h3, h4⟩ := h
        subst h1; subst h2; subst h3; subst h4
        exact ⟨rfl, by omega, fun _ => rfl, fun buf hb => by simp at hb⟩
      | data bs =>
        have hp := read_data_pending hrd
        simp only [hrd] at h
        by_cases h0 : bs.length = 0
        · simp only [h0, if_true, Outcome.ret.injEq] at h
          obtain ⟨h1, h2, h3, h4⟩ := h
          subst h1; subst h2; subst h3; subst h4
          refine ⟨rfl, by omega, fun e => by simp at e, ?_⟩
          intro buf hb
          simp only [Option.some.injEq] at hb
          subst hb
          refine ⟨hlen, hpos, ?_⟩
          intro hopen hc
          have := (read_open hopen hc hrd).2
          have hbs : bs = [] := List.length_eq_zero.mp h0
          exact absurd (by rw [hbs]) this
        · simp only [h0, if_false] at h
          cases hst : store heap_data position bs with
          | none => simp [hst] at h
          | some filled =>
            have hs := store_some hst
            have hmod : add32 position bs.length ≤ position + bs.length := by
              unfold add32; exact Nat.mod_le _ _
            simp only [hst] at h
            by_cases hge : add32 position bs.length ≥ len
            · simp only [hge, if_true, Outcome.ret.injEq] at h
              obtain ⟨h1, h2, h3, h4⟩ := h
              subst h1; subst h2; subst h3; subst h4
              refine ⟨rfl, by omega, fun e => by simp at e, ?_⟩
              intro buf hb
              simp only [Option.some.injEq] at hb
              subst hb
              exact ⟨by omega, by omega, fun _ _ => by omega⟩
            · simp only [hge, if_false] at h
              have := ih filled (add32 position bs.length) tl data out_len c1 rest
                (by omega) (by omega) h
              obtain ⟨a1, a2, a3, a4⟩ := this
              refine ⟨a1, by omega, a3, ?_⟩
              intro buf hb
              obtain ⟨b1, b2, b3⟩ := a4 buf hb
              refine ⟨b1, b2, ?_⟩
              intro hopen hc
              exact b3 (read_open hopen hc hrd).1 hc

theorem awaitData_some (recv_buffer : Nat → Byte) :
    ∀ (script : List ReadResult) (n : Nat) (buf : Nat → Byte) (rest : List ReadResult),
      awaitData recv_buffer script = some (n, buf, rest) →
      0 < n ∧ n ≤ 1024 ∧ pending rest < pending script ∧
      (ReadResult.data [] ∉ script → ReadResult.data [] ∉ rest) := by
  intro script
  induction script with
  | nil => intro n buf rest h; simp [awaitData] at h
  | cons r tl ih =>
    intro n buf rest h
    cases r with
    | err =>
      simp only [awaitData] at h
      obtain ⟨a, b, c, d⟩ := ih n buf rest h
      refine ⟨a, b, by simp only [pending]; omega, ?_⟩
      intro hopen
      exact d (fun hm => hopen (List.mem_cons_of_mem _ hm))
    | data bs =>
      simp only [awaitData] at h
      by_cases h0 : bs.length = 0
      · simp only [h0, if_true] at h
        obtain ⟨a, b, c, d⟩ := ih n buf rest h
        refine ⟨a, b, by simp only [pending]; omega, ?_⟩
        intro hopen
        exact d (fun hm => hopen (List.mem_cons_of_mem _ hm))
      · simp only [h0, if_false] at h
        by_cases h1 : bs.length ≤ 1024
        · simp only [h1, if_true, Option.some.injEq, Prod.mk.injEq] at h
          obtain ⟨e1, _, e3⟩ := h
          subst e1; subst e3
          refine ⟨by omega, h1, by simp only [pending]; omega, ?_⟩
          intro hopen
          exact fun hm => hopen (List.mem_cons_of_mem _ hm)
        · simp only [h1, if_false, Option.some.injEq, Prod.mk.injEq] at h
          obtain ⟨e1, _, e3⟩ := h
          subst e1; subst e3
          refine ⟨by omega, by omega, by simp only [pending, List.length_drop]; omega, ?_⟩
          intro hopen
          simp only [List.mem_cons, not_or] at hopen ⊢
          refine ⟨?_, hopen.2⟩
          intro e
          have e2 := congrArg (fun r => match r with | ReadResult.data b => b.length | _ => 0) e
          simp only [List.length_nil, List.length_drop] at e2
          omega


/-- Every return of `_recvData` after a first read that decodes as `generic_data`. -/
theorem _recvData_generic_ret (c : Connection) (stale : Nat → Byte)
    (script rest0 : List ReadResult) (n : Nat) (recv_buffer : Nat → Byte)
    (hread : awaitData stale script = some (n, recv_buffer, rest0))
    (hkind : (GET_PRIVATE_HEADER recv_buffer).1 = generic_data)
    (data : Option (List Byte)) (out_len : Nat) (c1 : Connection) (rest : List ReadResult)
    (h : _recvData c stale script = .ret data out_len c1 rest) :
    c1 = c ∧ pending rest ≤ pending rest0 ∧ (data = none → out_len = 0) ∧
    (∀ buf, data = some buf →
      buf.length = (GET_PRIVATE_HEADER recv_buffer).2 ∧
      out_len ≤ (GET_PRIVATE_HEADER recv_buffer).2 ∧
      (ReadResult.data [] ∉ script → (GET_PRIVATE_HEADER recv_buffer).2 + c.header_size < U32 →
        out_len = (GET_PRIVATE_HEADER recv_buffer).2)) := by
  obtain ⟨hn0, hn1, _, hopen0⟩ := awaitData_some stale script n recv_buffer rest0 hread
  simp only [_recvData, hread, hkind, if_true] at h
  by_cases hsrc : 4 + sub32 n c.header_size ≤ 1024
  · simp only [hsrc, if_true] at h
    cases hst : store (calloc (GET_PRIVATE_HEADER recv_buffer).2) 0
        (slice recv_buffer 4 (sub32 n c.header_size)) with
    | none => simp [hst] at h
    | some copied =>
      have hs := store_some hst
      simp only [slice, calloc, List.length_map, List.length_range, List.length_replicate,
        Nat.zero_add] at hs
      simp only [hst] at h
      by_cases hdone : n ≥ add32 (GET_PRIVATE_HEADER recv_buffer).2 c.header_size
      · simp only [hdone, if_true, Outcome.ret.injEq] at h
        obtain ⟨h1, h2, h3, h4⟩ := h
        subst h1; subst h2; subst h3; subst h4
        refine ⟨rfl, le_refl _, fun e => by simp at e, ?_⟩
        intro buf hb
        simp only [Option.some.injEq] at hb
        subst hb
        refine ⟨hs.2, hs.1, ?_⟩
        intro _ hfit
        have h1 := hs.1
        unfold add32 at hdone
        unfold sub32 at h1 ⊢
        unfold U32 at hfit hdone h1 ⊢
        omega
      · simp only [hdone, if_false] at h
        unfold recvLoop at h
        obtain ⟨a1, a2, a3, a4⟩ := recvLoopAux_ret c _ _ copied _ rest0 data out_len c1 rest
          hs.2 hs.1 h
        refine ⟨a1, a2, a3, ?_⟩
        intro buf hb
        obtain ⟨b1, b2, b3⟩ := a4 buf hb
        refine ⟨b1, b2, ?_⟩
        intro hopen _
        exact b3 (hopen0 hopen) (by omega)
  · simp [hsrc] at h

/-- Every return of `_recvData`: the script shrinks, and `header_size` is either
untouched or at least `PRIVATE_HEADER_LEN`. -/
theorem _recvData_ret (c : Connection) (stale : Nat → Byte) (script : List ReadResult)
    (data : Option (List Byte)) (out_len : Nat) (c1 : Connection) (rest : List ReadResult)
    (h : _recvData c stale script = .ret data out_len c1 rest) :
    pending rest < pending script ∧
    (c1 = c ∨ (PRIVATE_HEADER_LEN ≤ c1.header_size ∧ data = none)) := by
  cases hread : awaitData stale script with
  | none => simp [_recvData, hread] at h
  | some p =>
    obtain ⟨n, recv_buffer, rest0⟩ := p
    obtain ⟨_, _, hlt, _⟩ := awaitData_some stale script n recv_buffer rest0 hread
    by_cases hkind : (GET_PRIVATE_HEADER recv_buffer).1 = generic_data
    · obtain ⟨a1, a2, _, _⟩ :=
        _recvData_generic_ret c stale script rest0 n recv_buffer hread hkind data out_len c1 rest h
      exact ⟨by omega, Or.inl a1⟩
    · simp only [_recvData, hread, hkind, if_false] at h
      by_cases hupd : (GET_PRIVATE_HEADER recv_buffer).1 = header_length_update
      · simp only [hupd, if_true] at h
        by_cases hlen : (GET_PRIVATE_HEADER recv_buffer).2 ≥ PRIVATE_HEADER_LEN
        · simp only [hlen, if_true, Outcome.ret.injEq] at h
          obtain ⟨h1, h2, h3, h4⟩ := h
          subst h1; subst h2; subst h3; subst h4
          exact ⟨hlt, Or.inr ⟨hlen, rfl⟩⟩
        · simp only [hlen, if_false, Outcome.ret.injEq] at h
          obtain ⟨h1, h2, h3, h4⟩ := h
          subst h1; subst h2; subst h3; subst h4
          exact ⟨hlt, Or.inl rfl⟩
      · simp only [hupd, if_false, Outcome.ret.injEq] at h
        obtain ⟨h1, h2, h3, h4⟩ := h
        subst h1; subst h2; subst h3; subst h4
        exact ⟨hlt, Or.inl rfl⟩

/-- The counter of `recvDataAux` is irrelevant once it covers the script. -/
theorem recvDataAux_calls :
    ∀ (f g : Nat) (c : Connection) (stale : Nat → Nat → Byte) (script : List ReadResult),
      pending script ≤ f → pending script ≤ g →
      recvDataAux f c stale script = recvDataAux g c stale script := by
  intro f
  induction f with
  | zero =>
    intro g c stale script hf _
    have hs : script = [] := pending_eq_zero (by omega)
    subst hs
    cases g <;> simp [recvDataAux, _recvData, awaitData]
  | succ f ih =>
    intro g c stale script hf hg
    cases g with
    | zero =>
      have hs : script = [] := pending_eq_zero (by omega)
      subst hs
      simp [recvDataAux, _recvData, awaitData]
    | succ g =>
      simp only [recvDataAux]
      cases hcall : _recvData c (stale 0) script with
      | blocked => rfl
      | fault => rfl
      | ret data out_len c1 rest =>
        have hlt := (_recvData_ret c (stale 0) script data out_len c1 rest hcall).1
        cases data with
        | some buf => rfl
        | none =>
          simp only
          by_cases hretry : out_len = U32 - 1
          · simp only [hretry, if_true]
            exact ih g c1 _ rest (by omega) (by omega)
          · simp [hretry]

/-- The loop equation of `recvData`. -/
theorem recvData_eq (c : Connection) (stale : Nat → Nat → Byte) (script : List ReadResult) :
    recvData c stale script =
      match _recvData c (stale 0) script with
      | .ret none out_len c1 rest =>
        if out_len = U32 - 1 then recvData c1 (fun k => stale (k + 1)) rest
        else .ret none out_len c1 rest
      | out => out := by
  unfold recvData
  cases hp : pending script with
  | zero =>
    have hs : script = [] := pending_eq_zero hp
    subst hs
    simp [recvDataAux, _recvData, awaitData]
  | succ k =>
    simp only [recvDataAux]
    cases hcall : _recvData c (stale 0) script with
    | blocked => rfl
    | fault => rfl
    | ret data out_len c1 rest =>
      have hlt := (_recvData_ret c (stale 0) script data out_len c1 rest hcall).1
      cases data with
      | some buf => rfl
      | none =>
        simp only
        by_cases hretry : out_len = U32 - 1
        · simp only [hretry, if_true]
          exact recvDataAux_calls k _ c1 _ rest (by omega) (by omega)
        · simp [hretry]

/-- A return of `recvData` keeps `header_size` at or above `PRIVATE_HEADER_LEN`. -/
theorem recvDataAux_header :
    ∀ (f : Nat) (c : Connection) (stale : Nat → Nat → Byte) (script : List ReadResult)
      (data : Option (List Byte)) (out_len : Nat) (c1 : Connection) (rest : List ReadResult),
      PRIVATE_HEADER_LEN ≤ c.header_size →
      recvDataAux f c stale script = .ret data out_len c1 rest →
      PRIVATE_HEADER_LEN ≤ c1.header_size := by
  intro f
  induction f with
  | zero =>
    intro c stale script data out_len c1 rest _ h
    simp [recvDataAux] at h
  | succ f ih =>
    intro c stale script data out_len c1 rest hc h
    simp only [recvDataAux] at h
    cases hcall : _recvData c (stale 0) script with
    | blocked => simp [hcall] at h
    | fault => simp [hcall] at h
    | ret d o c2 tl =>
      have hinv : PRIVATE_HEADER_LEN ≤ c2.header_size := by
        rcases (_recvData_ret c (stale 0) script d o c2 tl hcall).2 with e | e
        · rw [e]; exact hc
        · exact e.1
      rw [hcall] at h
      cases d with
      | some buf =>
        simp only [Outcome.ret.injEq] at h
        obtain ⟨_, _, h3, _⟩ := h
        subst h3
        exact hinv
      | none =>
        simp only at h
        by_cases hretry : o = U32 - 1
        · simp only [hretry, if_true] at h
          exact ih c2 _ tl data out_len c1 rest hinv h
        · simp only [hretry, if_false, Outcome.ret.injEq] at h
          obtain ⟨_, _, h3, _⟩ := h
          subst h3
          exact hinv


/-! ## The read that ends a short return -/

/-- A 0 result that stands right before `rest` in the script `read` leaves stands
right before `rest` in the script it was given: `read` takes from the front only. -/
theorem read_before {count : Nat} {script tl rest : List ReadResult} {r : ReadResult}
    (h : read count script = some (r, tl))
    (hs : ∃ pre, tl = pre ++ ReadResult.data [] :: rest) :
    ∃ pre, script = pre ++ ReadResult.data [] :: rest := by
  obtain ⟨pre, hpre⟩ := hs
  cases script with
  | nil => simp [read] at h
  | cons x xs =>
    cases x with
    | err =>
      simp only [read, Option.some.injEq, Prod.mk.injEq] at h
      obtain ⟨_, h2⟩ := h
      subst h2
      exact ⟨ReadResult.err :: pre, by rw [hpre]; rfl⟩
    | data cs =>
      simp only [read] at h
      split at h
      · simp only [Option.some.injEq, Prod.mk.injEq] at h
        obtain ⟨_, h2⟩ := h
        subst h2
        exact ⟨ReadResult.data cs :: pre, by rw [hpre]; rfl⟩
      · rename_i hlen
        simp only [Option.some.injEq, Prod.mk.injEq] at h
        obtain ⟨_, h2⟩ := h
        cases pre with
        | nil =>
          rw [← h2] at hpre
          simp only [List.nil_append, List.cons.injEq, ReadResult.data.injEq] at hpre
          have e2 := congrArg List.length hpre.1
          simp only [List.length_nil, List.length_drop] at e2
          omega
        | cons y ys =>
          rw [← h2] at hpre
          simp only [List.cons_append, List.cons.injEq] at hpre
          exact ⟨ReadResult.data cs :: ys, by rw [hpre.2]; rfl⟩

theorem awaitData_before (recv_buffer : Nat → Byte) (rest : List ReadResult) :
    ∀ (script : List ReadResult) (n : Nat) (buf : Nat → Byte) (rest0 : List ReadResult),
      awaitData recv_buffer script = some (n, buf, rest0) →
      (∃ pre, rest0 = pre ++ ReadResult.data [] :: rest) →
      ∃ pre, script = pre ++ ReadResult.data [] :: rest := by
  intro script
  induction script with
  | nil => intro n buf rest0 h; simp [awaitData] at h
  | cons x xs ih =>
    intro n buf rest0 h hs
    cases x with
    | err =>
      simp only [awaitData] at h
      obtain ⟨pre, hpre⟩ := ih n buf rest0 h hs
      exact ⟨ReadResult.err :: pre, by rw [hpre]; rfl⟩
    | data cs =>
      simp only [awaitData] at h
      by_cases h0 : cs.length = 0
      · simp only [h0, if_true] at h
        obtain ⟨pre, hpre⟩ := ih n buf rest0 h hs
        exact ⟨ReadResult.data cs :: pre, by rw [hpre]; rfl⟩
      · simp only [h0, if_false] at h
        obtain ⟨pre, hpre⟩ := hs
        by_cases h1 : cs.length ≤ 1024
        · simp only [h1, if_true, Option.some.injEq, Prod.mk.injEq] at h
          obtain ⟨_, _, e3⟩ := h
          subst e3
          exact ⟨ReadResult.data cs :: pre, by rw [hpre]; rfl⟩
        · simp only [h1, if_false, Option.some.injEq, Prod.mk.injEq] at h
          obtain ⟨_, _, e3⟩ := h
          cases pre with
          | nil =>
            rw [← e3] at hpre
            simp only [List.nil_append, List.cons.injEq, ReadResult.data.injEq] at hpre
            have e2 := congrArg List.length hpre.1
            simp only [List.length_nil, List.length_drop] at e2
            omega
          | cons y ys =>
            rw [← e3] at hpre
            simp only [List.cons_append, List.cons.injEq] at hpre
            exact ⟨ReadResult.data cs :: ys, by rw [hpre.2]; rfl⟩

/-- A buffer returned by the second loop carries the full length, or the loop
ended on a read that returned 0: the result `data []` right before the script left. -/
theorem recvLoopAux_exact (c : Connection) (len : Nat)
    (hcount : 0 < add32 len c.header_size) :
    ∀ (f : Nat) (heap_data : List Byte) (position : Nat) (script : List ReadResult)
      (buf : List Byte) (out_len : Nat) (c1 : Connection) (rest : List ReadResult),
      heap_data.length = len → position ≤ len →
      recvLoopAux c len f heap_data position script = .ret (some buf) out_len c1 rest →
      out_len = len ∨
        (out_len < len ∧ ∃ pre, script = pre ++ ReadResult.data [] :: rest) := by
  intro f
  induction f with
  | zero =>
    intro heap_data position script buf out_len c1 rest _ _ h
    simp [recvLoopAux] at h
  | succ f ih =>
    intro heap_data position script buf out_len c1 rest hlen hpos h
    simp only [recvLoopAux] at h
    cases hrd : read (add32 len c.header_size) script with
    | none => simp [hrd] at h
    | some p =>
      obtain ⟨r, tl⟩ := p
      cases r with
      | err => simp [hrd] at h
      | data bs =>
        simp only [hrd] at h
        by_cases h0 : bs.length = 0
        · simp only [h0, if_true, Outcome.ret.injEq] at h
          obtain ⟨_, h2, _, h4⟩ := h
          subst h2; subst h4
          have hbs : bs = [] := List.length_eq_zero.mp h0
          subst hbs
          have hscript : script = ReadResult.data [] :: tl := by
            have hmax : 0 < MAX_RW_COUNT := by decide
            cases script with
            | nil => simp [read] at hrd
            | cons x xs =>
              cases x with
              | err => simp [read] at hrd
              | data cs =>
                simp only [read] at hrd
                split at hrd
                · simp only [Option.some.injEq, Prod.mk.injEq, ReadResult.data.injEq] at hrd
                  rw [hrd.1, hrd.2]
                · rename_i hl
                  simp only [Option.some.injEq, Prod.mk.injEq, ReadResult.data.injEq] at hrd
                  have e2 := congrArg List.length hrd.1
                  simp only [List.length_nil, List.length_take] at e2
                  omega
          rcases Nat.lt_or_ge position len with hlt | hge
          · exact Or.inr ⟨hlt, [], by rw [hscript]; rfl⟩
          · exact Or.inl (by omega)
        · simp only [h0, if_false] at h
          cases hst : store heap_data position bs with
          | none => simp [hst] at h
          | some filled =>
            have hs := store_some hst
            have hmod : add32 position bs.length ≤ position + bs.length := by
              unfold add32; exact Nat.mod_le _ _
            simp only [hst] at h
            by_cases hge : add32 position bs.length ≥ len
            · simp only [hge, if_true, Outcome.ret.injEq] at h
              obtain ⟨_, h2, _, _⟩ := h
              subst h2
              exact Or.inl (by omega)
            · simp only [hge, if_false] at h
              rcases ih filled (add32 position bs.length) tl buf out_len c1 rest
                (by omega) (by omega) h with e | ⟨hlt, e⟩
              · exact Or.inl e
              · exact Or.inr ⟨hlt, read_before hrd e⟩

/-- After a first read that decodes as `generic_data`, with `len + header_size`
inside 32 bits: a buffer returned by `_recvData` carries the full length, or the
call ended on a read that returned 0. -/
theorem _recvData_generic_exact (c : Connection) (stale : Nat → Byte)
    (script rest0 : List ReadResult) (n : Nat) (recv_buffer : Nat → Byte)
    (hread : awaitData stale script = some (n, recv_buffer, rest0))
    (hkind : (GET_PRIVATE_HEADER recv_buffer).1 = generic_data)
    (hfit : (GET_PRIVATE_HEADER recv_buffer).2 + c.header_size < U32)
    (buf : List Byte) (out_len : Nat) (c1 : Connection) (rest : List ReadResult)
    (h : _recvData c stale script = .ret (some buf) out_len c1 rest) :
    out_len = (GET_PRIVATE_HEADER recv_buffer).2 ∨
      (out_len < (GET_PRIVATE_HEADER recv_buffer).2 ∧
        ∃ pre, script = pre ++ ReadResult.data [] :: rest) := by
  obtain ⟨hn0, hn1, _, _⟩ := awaitData_some stale script n recv_buffer rest0 hread
  simp only [_recvData, hread, hkind, if_true] at h
  by_cases hsrc : 4 + sub32 n c.header_size ≤ 1024
  · simp only [hsrc, if_true] at h
    cases hst : store (calloc (GET_PRIVATE_HEADER recv_buffer).2) 0
        (slice recv_buffer 4 (sub32 n c.header_size)) with
    | none => simp [hst] at h
    | some copied =>
      have hs := store_some hst
      simp only [slice, calloc, List.length_map, List.length_range, List.length_replicate,
        Nat.zero_add] at hs
      simp only [hst] at h
      by_cases hdone : n ≥ add32 (GET_PRIVATE_HEADER recv_buffer).2 c.header_size
      · simp only [hdone, if_true, Outcome.ret.injEq] at h
        obtain ⟨_, h2, _, _⟩ := h
        subst h2
        left
        have h1 := hs.1
        unfold add32 at hdone
        unfold sub32 at h1 ⊢
        unfold U32 at hfit hdone h1 ⊢
        omega
      · simp only [hdone, if_false] at h
        unfold recvLoop at h
        rcases recvLoopAux_exact c _ (by omega) _ copied _ rest0 buf out_len c1 rest
          hs.2 hs.1 h with e | ⟨hlt, e⟩
        · exact Or.inl e
        · exact Or.inr ⟨hlt, awaitData_before stale rest script n recv_buffer rest0 hread e⟩
  · simp [hsrc] at h

/-! ## The receive path: control frames, unknown kinds, reported length -/

/-- C7. A first read whose header decodes as kind `header_length_update`: with a
length field `L ≥ PRIVATE_HEADER_LEN`, `_recvData` sets `header_size` to `L` and
returns the retry outcome (null buffer, `*out_len = 2^32 - 1`), on which `recvData`
does not return but calls `_recvData` again on the script left; with `L` below
`PRIVATE_HEADER_LEN`, `recvData` returns the null buffer; in no case does
`_recvData` return a buffer for that read. -/
theorem control_frame_consumed (c : Connection) (stale : Nat → Nat → Byte)
    (script rest : List ReadResult) (n : Nat) (recv_buffer : Nat → Byte)
    (hread : awaitData (stale 0) script = some (n, recv_buffer, rest))
    (hkind : (GET_PRIVATE_HEADER recv_buffer).1 = header_length_update) :
    (PRIVATE_HEADER_LEN ≤ (GET_PRIVATE_HEADER recv_buffer).2 →
      _recvData c (stale 0) script
        = .ret none (2 ^ 32 - 1) { c with header_size := (GET_PRIVATE_HEADER recv_buffer).2 } rest ∧
      recvData c stale script
        = recvData { c with header_size := (GET_PRIVATE_HEADER recv_buffer).2 }
            (fun k => stale (k + 1)) rest) ∧
    ((GET_PRIVATE_HEADER recv_buffer).2 < PRIVATE_HEADER_LEN →
      recvData c stale script = .ret none 0 c rest) ∧
    (∀ buf out_len c1 rest1, _recvData c (stale 0) script ≠ .ret (some buf) out_len c1 rest1) := by
  have hne : ¬ header_length_update = generic_data := by decide
  refine ⟨?_, ?_, ?_⟩
  · intro hlen
    have hcall : _recvData c (stale 0) script
        = .ret none (U32 - 1) { c with header_size := (GET_PRIVATE_HEADER recv_buffer).2 } rest := by
      simp only [_recvData, hread, hkind, hne, if_false, if_true]
      simp only [ge_iff_le, hlen, if_true]
    refine ⟨hcall, ?_⟩
    rw [recvData_eq, hcall]
    simp
  · intro hlen
    have hcall : _recvData c (stale 0) script = .ret none 0 c rest := by
      simp only [_recvData, hread, hkind, hne, if_false, if_true]
      have : ¬ (GET_PRIVATE_HEADER recv_buffer).2 ≥ PRIVATE_HEADER_LEN := by omega
      simp only [this, if_false]
    rw [recvData_eq, hcall]
    have : ¬ (0 = U32 - 1) := by decide
    simp only [this, if_false]
  · intro buf out_len c1 rest1 h
    simp only [_recvData, hread, hkind, hne, if_false, if_true] at h
    split at h <;> simp at h

/-- C7 at the control frame announcing a 24-byte header. -/
theorem control_frame_consumed_witness :
    awaitData (fun _ => 0) [.data [1, 0, 0, 0, 24, 0, 0, 0], .data [0, 0, 0, 0]]
      = some (8, fun i => ([1, 0, 0, 0, 24, 0, 0, 0] : List Byte).getD i 0, [.data [0, 0, 0, 0]]) ∧
    _recvData ⟨3, 8, false⟩ (fun _ => 0) [.data [1, 0, 0, 0, 24, 0, 0, 0], .data [0, 0, 0, 0]]
      = .ret none (2 ^ 32 - 1) ⟨3, 24, false⟩ [.data [0, 0, 0, 0]] :=
  ⟨rfl, ((control_frame_consumed ⟨3, 8, false⟩ (fun _ _ => 0)
    [.data [1, 0, 0, 0, 24, 0, 0, 0], .data [0, 0, 0, 0]] [.data [0, 0, 0, 0]] 8
    (fun i => ([1, 0, 0, 0, 24, 0, 0, 0] : List Byte).getD i 0) rfl rfl).1 (by decide)).1⟩

/-- C8. A first read whose kind field is neither `generic_data` nor
`header_length_update`: `_recvData` returns the null buffer with `*out_len = 0`,
leaves the connection as it was, and `recvData` returns that failure with the
script as the first read left it. -/
theorem unknown_kind_fails (c : Connection) (stale : Nat → Nat → Byte)
    (script rest : List ReadResult) (n : Nat) (recv_buffer : Nat → Byte)
    (hread : awaitData (stale 0) script = some (n, recv_buffer, rest))
    (hgeneric : (GET_PRIVATE_HEADER recv_buffer).1 ≠ generic_data)
    (hupdate : (GET_PRIVATE_HEADER recv_buffer).1 ≠ header_length_update) :
    _recvData c (stale 0) script = .ret none 0 c rest ∧
    recvData c stale script = .ret none 0 c rest := by
  have hcall : _recvData c (stale 0) script = .ret none 0 c rest := by
    simp only [_recvData, hread, hgeneric, hupdate, if_false]
  refine ⟨hcall, ?_⟩
  rw [recvData_eq, hcall]
  have : ¬ (0 = U32 - 1) := by decide
  simp only [this, if_false]

/-- C8 at a frame of kind 7. -/
theorem unknown_kind_fails_witness :
    awaitData (fun _ => 0) [.data [7, 0, 0, 0, 2, 0, 0, 0, 97, 98], .data [1, 0, 0, 0]]
      = some (10, fun i => ([7, 0, 0, 0, 2, 0, 0, 0, 97, 98] : List Byte).getD i 0,
          [.data [1, 0, 0, 0]]) ∧
    (_recvData ⟨3, 8, false⟩ (fun _ => 0)
        [.data [7, 0, 0, 0, 2, 0, 0, 0, 97, 98], .data [1, 0, 0, 0]]
      = .ret none 0 ⟨3, 8, false⟩ [.data [1, 0, 0, 0]] ∧
     recvData ⟨3, 8, false⟩ (fun _ _ => 0)
        [.data [7, 0, 0, 0, 2, 0, 0, 0, 97, 98], .data [1, 0, 0, 0]]
      = .ret none 0 ⟨3, 8, false⟩ [.data [1, 0, 0, 0]]) :=
  ⟨rfl, unknown_kind_fails ⟨3, 8, false⟩ (fun _ _ => 0)
    [.data [7, 0, 0, 0, 2, 0, 0, 0, 97, 98], .data [1, 0, 0, 0]] [.data [1, 0, 0, 0]] 10
    (fun i => ([7, 0, 0, 0, 2, 0, 0, 0, 97, 98] : List Byte).getD i 0) rfl
    (by decide) (by decide)⟩

/-- C3 as stated fails: the first read is the header of a Generic frame declaring
10 bytes, the next read delivers 3 bytes and the one after it returns 0;
`_recvData` returns a buffer, not a failure, and reports length 3. -/
theorem recvData_eof_short_buffer :
    GET_PRIVATE_HEADER (cells [0, 0, 0, 0, 10, 0, 0, 0]) = (generic_data, 10) ∧
    _recvData ⟨3, 8, false⟩ (fun _ => 0)
        [.data [0, 0, 0, 0, 10, 0, 0, 0], .data [1, 2, 3], .data []]
      = .ret (some [1, 2, 3, 0, 0, 0, 0, 0, 0, 0]) 3 ⟨3, 8, false⟩ [] ∧
    (3 : Nat) ≠ 10 := by
  decide

/-- C3 (amended). After a first read that decodes as a Generic frame declaring
length `L`, every return of `_recvData` leaves the connection as it was and is
either the failure (null buffer, `*out_len = 0`) or a buffer of `L` bytes with a
reported length of at most `L`.  When `L + header_size` fits 32 bits the reported
length is exactly `L` unless the last read of the call returned 0 (the result
`data []` standing right before the script the call leaves), in which case it is
below `L`; so it is exactly `L` whenever none of the read results the call
consumed is 0, and whenever the script holds no 0 result at all.  A read returning
0 ends the second loop with the buffer as filled so far and the count stored so
far. -/
theorem recvData_generic_length (c : Connection) (stale : Nat → Byte)
    (script rest0 : List ReadResult) (n : Nat) (recv_buffer : Nat → Byte)
    (hread : awaitData stale script = some (n, recv_buffer, rest0))
    (hkind : (GET_PRIVATE_HEADER recv_buffer).1 = generic_data) :
    (∀ data out_len c1 rest, _recvData c stale script = .ret data out_len c1 rest →
      c1 = c ∧ (data = none → out_len = 0) ∧
      (∀ buf, data = some buf →
        buf.length = (GET_PRIVATE_HEADER recv_buffer).2 ∧
        out_len ≤ (GET_PRIVATE_HEADER recv_buffer).2 ∧
        ((GET_PRIVATE_HEADER recv_buffer).2 + c.header_size < 2 ^ 32 →
          (out_len = (GET_PRIVATE_HEADER recv_buffer).2 ∨
            (out_len < (GET_PRIVATE_HEADER recv_buffer).2 ∧
              ∃ pre, script = pre ++ ReadResult.data [] :: rest)) ∧
          (∀ consumed, script = consumed ++ rest → ReadResult.data [] ∉ consumed →
            out_len = (GET_PRIVATE_HEADER recv_buffer).2) ∧
          (ReadResult.data [] ∉ script → out_len = (GET_PRIVATE_HEADER recv_buffer).2)))) ∧
    (∀ heap_data position tl,
      recvLoop c (GET_PRIVATE_HEADER recv_buffer).2 heap_data position (.data [] :: tl)
        = .ret (some heap_data) position c tl) := by
  constructor
  · intro data out_len c1 rest h
    obtain ⟨a1, _, a3, a4⟩ :=
      _recvData_generic_ret c stale script rest0 n recv_buffer hread hkind data out_len c1 rest h
    refine ⟨a1, a3, ?_⟩
    intro buf hb
    obtain ⟨b1, b2, _⟩ := a4 buf hb
    refine ⟨b1, b2, ?_⟩
    intro hfit
    subst hb
    have hexact := _recvData_generic_exact c stale script rest0 n recv_buffer hread hkind
      hfit buf out_len c1 rest h
    refine ⟨hexact, ?_, ?_⟩
    · intro consumed hsplit hnone
      rcases hexact with e | ⟨_, pre, hpre⟩
      · exact e
      · exfalso
        have hcat : consumed ++ rest = (pre ++ [ReadResult.data []]) ++ rest := by
          rw [← hsplit, hpre]; simp
        have hc : consumed = pre ++ [ReadResult.data []] := List.append_cancel_right hcat
        exact hnone (by rw [hc]; simp)
    · intro hnone
      rcases hexact with e | ⟨_, pre, hpre⟩
      · exact e
      · exfalso
        exact hnone (by rw [hpre]; simp)
  · intro heap_data position tl
    rw [recvLoop_eq]
    simp [read]

/-- C3 (amended) at a Generic frame declaring 10 bytes, delivered as the header,
3 bytes and 7 bytes, with the peer closing afterwards: the call consumes the three
read results before the 0 result, so the reported length is exactly 10. -/
theorem recvData_generic_length_witness :
    awaitData (fun _ => 0)
        [.data [0, 0, 0, 0, 10, 0, 0, 0], .data [1, 2, 3], .data [4, 5, 6, 7, 8, 9, 10],
          .data []]
      = some (8, fun i => ([0, 0, 0, 0, 10, 0, 0, 0] : List Byte).getD i 0,
          [.data [1, 2, 3], .data [4, 5, 6, 7, 8, 9, 10], .data []]) ∧
    _recvData ⟨3, 8, false⟩ (fun _ => 0)
        [.data [0, 0, 0, 0, 10, 0, 0, 0], .data [1, 2, 3], .data [4, 5, 6, 7, 8, 9, 10],
          .data []]
      = .ret (some [1, 2, 3, 4, 5, 6, 7, 8, 9, 10]) 10 ⟨3, 8, false⟩ [.data []] ∧
    ReadResult.data [] ∉
      [ReadResult.data [0, 0, 0, 0, 10, 0, 0, 0], .data [1, 2, 3],
        .data [4, 5, 6, 7, 8, 9, 10]] ∧
    (10 : Nat) = (GET_PRIVATE_HEADER (cells [0, 0, 0, 0, 10, 0, 0, 0])).2 :=
  ⟨rfl, rfl, by decide,
    ((((recvData_generic_length ⟨3, 8, false⟩ (fun _ => 0)
      [.data [0, 0, 0, 0, 10, 0, 0, 0], .data [1, 2, 3], .data [4, 5, 6, 7, 8, 9, 10],
        .data []]
      [.data [1, 2, 3], .data [4, 5, 6, 7, 8, 9, 10], .data []] 8
      (fun i => ([0, 0, 0, 0, 10, 0, 0, 0] : List Byte).getD i 0) rfl rfl).1
      (some [1, 2, 3, 4, 5, 6, 7, 8, 9, 10]) 10 ⟨3, 8, false⟩ [.data []] rfl).2.2
      [1, 2, 3, 4, 5, 6, 7, 8, 9, 10] rfl).2.2 (by decide)).2.1
      [.data [0, 0, 0, 0, 10, 0, 0, 0], .data [1, 2, 3], .data [4, 5, 6, 7, 8, 9, 10]]
      rfl (by decide)⟩

/-! ## The send path -/

theorem loadWord_storeWord (x : Nat) (tl : List Byte) :
    loadWord (cells (storeWord x ++ tl)) 0 = x % U32 := by
  simp only [loadWord, cells, storeWord, U32, Fin.ofNat, List.cons_append, List.getD_cons_zero,
    List.getD_cons_succ, Nat.zero_add]
  omega

theorem loadWord_storeWord_second (x y : Nat) (tl : List Byte) :
    loadWord (cells (storeWord x ++ (storeWord y ++ tl))) 4 = y % U32 := by
  simp only [loadWord, cells, storeWord, U32, Fin.ofNat, List.cons_append, List.getD_cons_zero,
    List.getD_cons_succ, Nat.zero_add, List.nil_append]
  omega

/-- C5 as stated fails: with `header_size` 16, `setHeaderSize(16)` writes 8 bytes,
not 16, and the length field of the frame is 24, not 16. -/
theorem setHeaderSize_sixteen :
    setHeaderSize ⟨3, 16, false⟩ 16 = [1, 0, 0, 0, 24, 0, 0, 0] ∧
    (setHeaderSize ⟨3, 16, false⟩ 16).length ≠ 16 ∧
    (GET_PRIVATE_HEADER (cells (setHeaderSize ⟨3, 16, false⟩ 16))).2 ≠ 16 := by
  decide

/-- C5 (amended). For every `size` and every connection, whatever its
`header_size`, `setHeaderSize(size)` writes one frame of exactly
`PRIVATE_HEADER_LEN` = 8 bytes whose kind field is `header_length_update` and
whose length field is `size + PRIVATE_HEADER_LEN` modulo `2^32`. -/
theorem setHeaderSize_frame (c : Connection) (size : Nat) :
    (setHeaderSize c size).length = PRIVATE_HEADER_LEN ∧
    (GET_PRIVATE_HEADER (cells (setHeaderSize c size))).1 = header_length_update ∧
    (GET_PRIVATE_HEADER (cells (setHeaderSize c size))).2 = (size + PRIVATE_HEADER_LEN) % 2 ^ 32 := by
  refine ⟨rfl, ?_, ?_⟩
  · simp only [GET_PRIVATE_HEADER, setHeaderSize]
    rw [loadWord_storeWord]
    decide
  · simp only [GET_PRIVATE_HEADER, setHeaderSize]
    have h := loadWord_storeWord_second header_length_update (add32 size PRIVATE_HEADER_LEN) []
    simp only [List.append_nil] at h
    rw [h]
    simp only [add32, U32, Nat.mod_mod]
    norm_num

/-- C4 on the payload "hello" with `header_size` 8: `sendData` hands `write` 13 bytes, but
the kind field [0,4) holds the length 5, not `generic_data`; the length field
[4,8) holds the payload bytes "hell", not the encoding of 5; the payload lies in
[4,9), and the bytes [8,13) are its last byte and four cells `malloc` left as they
were. -/
theorem sendData_hello_layout (junk : Nat → Byte) :
    sendData ⟨3, 8, false⟩ junk [104, 101, 108, 108, 111]
      = some [5, 0, 0, 0, 104, 101, 108, 108, 111, junk 9, junk 10, junk 11, junk 12] ∧
    (GET_PRIVATE_HEADER
      (cells [5, 0, 0, 0, 104, 101, 108, 108, 111, junk 9, junk 10, junk 11, junk 12])).1
      = 5 ∧
    slice (cells [5, 0, 0, 0, 104, 101, 108, 108, 111, junk 9, junk 10, junk 11, junk 12]) 4 4
      = [104, 101, 108, 108] ∧
    slice (cells [5, 0, 0, 0, 104, 101, 108, 108, 111, junk 9, junk 10, junk 11, junk 12]) 4 5
      = [104, 101, 108, 108, 111] ∧
    slice (cells [5, 0, 0, 0, 104, 101, 108, 108, 111, junk 9, junk 10, junk 11, junk 12]) 8 5
      = [111, junk 9, junk 10, junk 11, junk 12] :=
  ⟨rfl, rfl, rfl, rfl, rfl⟩

/-- C1 on the payload "hello", both connections at the default `header_size`: the
frame `sendData` writes starts with the length 5 where the receiver reads the
kind, so the peer's `recvData` returns the null buffer with `*out_len = 0`. -/
theorem roundtrip_hello_rejected (junk : Nat → Byte) (stale : Nat → Nat → Byte) :
    sendData ⟨3, 8, false⟩ junk [104, 101, 108, 108, 111]
      = some [5, 0, 0, 0, 104, 101, 108, 108, 111, junk 9, junk 10, junk 11, junk 12] ∧
    recvData ⟨4, 8, false⟩ stale
        [.data [5, 0, 0, 0, 104, 101, 108, 108, 111, junk 9, junk 10, junk 11, junk 12]]
      = .ret none 0 ⟨4, 8, false⟩ [] :=
  ⟨rfl, rfl⟩

/-- C2 on the Generic frame declaring 4 bytes with payload "abcd", `header_size` 8:
delivered in one read, `recvData` returns the bytes of the length field, [4,0,0,0],
in place of the payload; delivered with a first read of 7 bytes, `n - header_size`
wraps and the copy out of `recv_buffer` leaves the array. -/
theorem reassembly_abcd_wrong (stale : Nat → Nat → Byte) :
    recvData ⟨3, 8, false⟩ stale [.data [0, 0, 0, 0, 4, 0, 0, 0, 97, 98, 99, 100]]
      = .ret (some [4, 0, 0, 0]) 4 ⟨3, 8, false⟩ [] ∧
    recvData ⟨3, 8, false⟩ stale [.data [0, 0, 0, 0, 4, 0, 0], .data [0, 97, 98, 99, 100]]
      = .fault :=
  ⟨rfl, rfl⟩

/-- C6 in the scenario of the specification (S = 16, a 3-byte payload "abc"):
A announces with `setHeaderSize(16)`, B consumes the control frame and holds
`header_size` 24, B sends "abc"; the frame starts with the length 3 where A reads
the kind, and A's `recvData` returns the null buffer with `*out_len = 0`.  The
same happens when B sends before it has consumed the control frame. -/
theorem renegotiation_abc_rejected (junk : Nat → Byte) (stale : Nat → Nat → Byte) :
    setHeaderSize ⟨3, 8, false⟩ 16 = [1, 0, 0, 0, 24, 0, 0, 0] ∧
    _recvData ⟨4, 8, false⟩ (stale 0) [.data [1, 0, 0, 0, 24, 0, 0, 0]]
      = .ret none (2 ^ 32 - 1) ⟨4, 24, false⟩ [] ∧
    (∃ frame, sendData ⟨4, 24, false⟩ junk [97, 98, 99] = some frame ∧
      frame.length = 27 ∧ frame.take 7 = [3, 0, 0, 0, 97, 98, 99] ∧
      recvData ⟨3, 8, false⟩ stale [.data frame] = .ret none 0 ⟨3, 8, false⟩ []) ∧
    (∃ frame, sendData ⟨4, 8, false⟩ junk [97, 98, 99] = some frame ∧
      frame.length = 11 ∧ frame.take 7 = [3, 0, 0, 0, 97, 98, 99] ∧
      recvData ⟨3, 8, false⟩ stale [.data frame] = .ret none 0 ⟨3, 8, false⟩ []) :=
  ⟨rfl, rfl, ⟨_, rfl, rfl, rfl, rfl⟩, ⟨_, rfl, rfl, rfl, rfl⟩⟩


/-! ## Establishing the connection -/

theorem strncmp_eq_zero :
    ∀ (n : Nat) (a b : List Char), strncmp a b n = 0 ↔ a.take n = b.take n := by
  intro n
  induction n with
  | zero => intro a b; simp [strncmp]
  | succ n ih =>
    intro a b
    cases a with
    | nil => cases b <;> simp [strncmp]
    | cons x xs =>
      cases b with
      | nil => simp [strncmp]
      | cons y ys =>
        simp only [strncmp, List.take_succ_cons, List.cons.injEq]
        by_cases hxy : x = y
        · simp [hxy, ih]
        · simp only [hxy, if_false, false_and, iff_false]
          split <;> decide

/-- With the name `inet_ntop` wrote, `strncmp` over `INET6_ADDRSTRLEN` characters is
string equality. -/
theorem strncmp_peer (peer : PeerName) (a : List Char) :
    strncmp peer.name a INET6_ADDRSTRLEN = 0 ↔ peer.name = a := by
  rw [strncmp_eq_zero]
  have hfit := peer.fits
  have htake : peer.name.take INET6_ADDRSTRLEN = peer.name :=
    List.take_of_length_le (by omega)
  rw [htake]
  constructor
  · intro h
    have hlen := congrArg List.length h
    simp only [List.length_take] at hlen
    have : a.take INET6_ADDRSTRLEN = a := List.take_of_length_le (by omega)
    rw [h, this]
  · intro h
    rw [← h, htake]

theorem listen_strict (a : List Char) (fd : Int) (peer : PeerName)
    (post : List (Int × PeerName)) (hpeer : peer.name = a) :
    ∀ pre : List (Int × PeerName), (∀ p ∈ pre, p.2.name ≠ a) →
      listen true (some a) (pre ++ (fd, peer) :: post) = some (fd, pre.map Prod.fst, post) := by
  intro pre
  induction pre with
  | nil =>
    intro _
    have h0 : strncmp peer.name a INET6_ADDRSTRLEN = 0 := (strncmp_peer peer a).2 hpeer
    simp [listen, h0]
  | cons p tl ih =>
    intro hpre
    obtain ⟨pfd, pname⟩ := p
    have hne : strncmp pname.name a INET6_ADDRSTRLEN ≠ 0 := by
      intro h0
      exact hpre (pfd, pname) (List.mem_cons_self _ _) ((strncmp_peer pname a).1 h0)
    have htl := ih (fun q hq => hpre q (List.mem_cons_of_mem _ hq))
    simp [listen, hne, htl]

theorem listen_first (strict : Bool) (addr : Option (List Char)) (fd : Int) (peer : PeerName)
    (post : List (Int × PeerName)) (h : strict = false ∨ addr = none) :
    listen strict addr ((fd, peer) :: post) = some (fd, [], post) := by
  rcases h with h | h <;> simp [listen, h]

theorem new_passive (net : Network) (addr : Option (List Char)) (port : Int)
    (strict logging : Bool) (hpassive : passive net addr) :
    Connection.new net addr port strict logging =
      match listen strict addr net.accepts with
      | none => none
      | some (new_fd, closed, _) => some (⟨new_fd, PRIVATE_HEADER_LEN, logging⟩, closed) := by
  obtain ⟨hsock, hmode⟩ := hpassive
  have hs : ¬ net.socket < 0 := by omega
  cases addr with
  | none => simp [Connection.new, hs]
  | some a =>
    simp only [Connection.new, hs, if_false]
    rcases hmode with h | h | h
    · simp at h
    · simp only [Option.getD_some] at h
      simp [h]
    · by_cases hp : net.inet_pton a ≤ 0
      · simp [hp]
      · simp [hp, h]

/-- C9. In passive mode, with the accept results a sequence of (descriptor, peer
address string) pairs: when `strict` is true and an address was supplied, the
constructor adopts the first accepted peer whose address string equals the
supplied address and closes every peer accepted before it; when `strict` is false
or no address was supplied, it adopts the first accepted peer and closes none. -/
theorem strict_peer_filtering (net : Network) (addr : Option (List Char)) (port : Int)
    (strict logging : Bool) (hpassive : passive net addr) :
    (∀ (a : List Char) (pre post : List (Int × PeerName)) (fd : Int) (peer : PeerName),
      strict = true → addr = some a → net.accepts = pre ++ (fd, peer) :: post →
      (∀ p ∈ pre, p.2.name ≠ a) → peer.name = a →
      Connection.new net addr port strict logging
        = some (⟨fd, PRIVATE_HEADER_LEN, logging⟩, pre.map Prod.fst)) ∧
    (∀ (post : List (Int × PeerName)) (fd : Int) (peer : PeerName),
      strict = false ∨ addr = none → net.accepts = (fd, peer) :: post →
      Connection.new net addr port strict logging
        = some (⟨fd, PRIVATE_HEADER_LEN, logging⟩, [])) := by
  constructor
  · intro a pre post fd peer hstrict haddr hacc hpre hpeer
    rw [new_passive net addr port strict logging hpassive, hacc, hstrict, haddr,
      listen_strict a fd peer post hpeer pre hpre]
  · intro post fd peer hmode hacc
    rw [new_passive net addr port strict logging hpassive, hacc,
      listen_first strict addr fd peer post hmode]

/-- C9 with the address "10.0.0.2" supplied and no connection possible: strict, the
peer from "10.0.0.9" on descriptor 5 is closed and the peer from "10.0.0.2" on
descriptor 6 is adopted. -/
theorem strict_peer_filtering_witness :
    passive ⟨3, fun _ => 1, -1,
        [(5, ⟨"10.0.0.9".toList, by decide⟩), (6, ⟨"10.0.0.2".toList, by decide⟩)]⟩
      (some "10.0.0.2".toList) ∧
    Connection.new ⟨3, fun _ => 1, -1,
        [(5, ⟨"10.0.0.9".toList, by decide⟩), (6, ⟨"10.0.0.2".toList, by decide⟩)]⟩
      (some "10.0.0.2".toList) 9000 true false
      = some (⟨6, PRIVATE_HEADER_LEN, false⟩, [5]) :=
  ⟨⟨by decide, Or.inr (Or.inr (by decide))⟩,
   (strict_peer_filtering ⟨3, fun _ => 1, -1,
        [(5, ⟨"10.0.0.9".toList, by decide⟩), (6, ⟨"10.0.0.2".toList, by decide⟩)]⟩
      (some "10.0.0.2".toList) 9000 true false
      ⟨by decide, Or.inr (Or.inr (by decide))⟩).1
      "10.0.0.2".toList [(5, ⟨"10.0.0.9".toList, by decide⟩)] [] 6
      ⟨"10.0.0.2".toList, by decide⟩ rfl rfl rfl
      (by intro p hp; simp only [List.mem_singleton] at hp; subst hp; decide) rfl⟩

/-! ## The header-size invariant -/

theorem new_header_size (net : Network) (addr : Option (List Char)) (port : Int)
    (strict logging : Bool) (c : Connection) (closed : List Int)
    (h : Connection.new net addr port strict logging = some (c, closed)) :
    c.header_size = PRIVATE_HEADER_LEN := by
  have hlisten : ∀ (o : Option (Int × List Int × List (Int × PeerName))),
      (match o with
        | none => none
        | some (new_fd, cl, _) =>
          some ((⟨new_fd, PRIVATE_HEADER_LEN, logging⟩ : Connection), cl)) = some (c, closed) →
      c.header_size = PRIVATE_HEADER_LEN := by
    intro o ho
    cases o with
    | none => simp at ho
    | some t =>
      obtain ⟨fd, cl, un⟩ := t
      simp only [Option.some.injEq, Prod.mk.injEq] at ho
      rw [← ho.1]
  simp only [Connection.new] at h
  by_cases hs : net.socket < 0
  · simp only [hs, if_true, Option.some.injEq, Prod.mk.injEq] at h
    rw [← h.1]
  · simp only [hs, if_false] at h
    cases addr with
    | none => exact hlisten _ h
    | some a =>
      simp only at h
      by_cases hp : net.inet_pton a ≤ 0
      · simp only [hp, if_true] at h
        exact hlisten _ h
      · simp only [hp, if_false] at h
        by_cases hc : net.connect < 0
        · simp only [hc, if_true] at h
          exact hlisten _ h
        · simp only [hc, if_false, Option.some.injEq, Prod.mk.injEq] at h
          rw [← h.1]

/-- C10. In every state of a connection reachable from the constructor by
`sendData`, `setHeaderSize` and `recvData` calls over any script of read results,
`header_size ≥ PRIVATE_HEADER_LEN`; and a control frame received in that state
whose length field is below `PRIVATE_HEADER_LEN` leaves the connection, with its
`header_size`, as it was. -/
theorem header_size_invariant (c : Connection) (hreach : Reachable c) :
    PRIVATE_HEADER_LEN ≤ c.header_size ∧
    (∀ (stale : Nat → Byte) (script rest : List ReadResult) (n : Nat)
        (recv_buffer : Nat → Byte),
      awaitData stale script = some (n, recv_buffer, rest) →
      (GET_PRIVATE_HEADER recv_buffer).1 = header_length_update →
      (GET_PRIVATE_HEADER recv_buffer).2 < PRIVATE_HEADER_LEN →
      _recvData c stale script = .ret none 0 c rest) := by
  constructor
  · induction hreach with
    | constructed h => rw [new_header_size _ _ _ _ _ _ _ h]
    | sent _ _ ih => exact ih
    | announced _ _ ih => exact ih
    | received _ h ih => exact recvDataAux_header _ _ _ _ _ _ _ _ ih h
  · intro stale script rest n recv_buffer hread hkind hlen
    have hne : ¬ header_length_update = generic_data := by decide
    have hlt : ¬ (GET_PRIVATE_HEADER recv_buffer).2 ≥ PRIVATE_HEADER_LEN := by omega
    simp only [_recvData, hread, hkind, hne, if_false, if_true, hlt]

/-- C10 at the state a connection built in passive mode reaches by receiving the
control frame announcing 24 and then an empty Generic frame: `header_size` is 24, and a
control frame announcing 5 leaves it so. -/
theorem header_size_invariant_witness :
    Reachable ⟨6, 24, false⟩ ∧
    PRIVATE_HEADER_LEN ≤ (⟨6, 24, false⟩ : Connection).header_size ∧
    _recvData ⟨6, 24, false⟩ (fun _ => 0) [.data [1, 0, 0, 0, 5, 0, 0, 0]]
      = .ret none 0 ⟨6, 24, false⟩ [] :=
  have hreach : Reachable ⟨6, 24, false⟩ :=
    Reachable.received
      (Reachable.constructed
        (show Connection.new ⟨3, fun _ => 1, -1, [(6, ⟨"10.0.0.2".toList, by decide⟩)]⟩
          none 9000 false false = some (⟨6, 8, false⟩, []) from rfl))
      (show recvData ⟨6, 8, false⟩ (fun _ _ => 0)
          [.data [1, 0, 0, 0, 24, 0, 0, 0], .data (List.replicate 24 0)]
        = .ret (some []) 0 ⟨6, 24, false⟩ [] from rfl)
  ⟨hreach, (header_size_invariant ⟨6, 24, false⟩ hreach).1,
    (header_size_invariant ⟨6, 24, false⟩ hreach).2 (fun _ => 0)
      [.data [1, 0, 0, 0, 5, 0, 0, 0]] [] 8
      (fun i => ([1, 0, 0, 0, 5, 0, 0, 0] : List Byte).getD i 0) rfl rfl (by decide)⟩

end Transport
